import Mathlib

/-!
Shallow embedding of the `gpio` Go package (platinasystems/gpio, src/gpio.go).

The package drives GPIO pins through the sysfs pseudo-filesystem and builds a
name-to-pin registry from a flattened device tree.  File I/O is modelled by an
explicit filesystem state `FS` threaded through the operations; Go's
`(value, err)` returns become pairs with an `Option IOErr` component; a Go
runtime panic (out-of-range slice indexing) is modelled by an `Option` result
being `none`.
-/

namespace Gpio

/-- Kinds of I/O failure surfaced by the modelled filesystem. -/
inductive IOErr where
  | openFailed
  | writeFailed
  | statFailed
  | scanFailed
  deriving DecidableEq, Repr

/-- Model of the pseudo-filesystem visible to the package: whether an open or a
write on a given path succeeds, the result of `os.Stat` on a path, the readable
content of a path, and a log of the writes performed (most recent first). -/
structure FS where
  openOk : String → Bool
  writeOk : String → Bool
  statErr : String → Option IOErr
  content : String → String
  written : List (String × String)

/-- Writing a string to an (already opened) file at path `fn`:
on success the write is appended to the log, on failure the state is
unchanged and an error is returned. -/
def FS.write (fs : FS) (fn s : String) : FS × Option IOErr :=
  if fs.writeOk fn then ({ fs with written := (fn, s) :: fs.written }, none)
  else (fs, some .writeFailed)

/-- `type Pin struct { Gpio int; Name string; Default string }`. -/
structure Pin where
  Gpio : Int
  Name : String
  Default : String
  deriving DecidableEq, Repr

/-- Association-list model of a Go `map[string]α`.  Go maps are key-unique;
`mapInsert` is `m[k] = v` (replace the binding if present, append otherwise). -/
def mapInsert {α : Type} (k : String) (v : α) : List (String × α) → List (String × α)
  | [] => [(k, v)]
  | (k', v') :: t => if k' = k then (k, v) :: t else (k', v') :: mapInsert k v t

/-- Go map read `m[k]` returning `(value, ok)`, as an `Option`. -/
def lookupM {α : Type} (k : String) : List (String × α) → Option α
  | [] => none
  | (k', v) :: t => if k' = k then some v else lookupM k t

/-- Number of bindings a list carries for key `k` (1 at most for a list built
by `mapInsert` from `[]`, as for a Go map). -/
def countKey {α : Type} (k : String) : List (String × α) → Nat
  | [] => 0
  | (k', _) :: t => (if k' = k then 1 else 0) + countKey k t

/-- `type GpioAliasMap map[string]string`. -/
def GpioAliasMap : Type := List (String × String)

/-- `type PinMap map[string]*Pin`. -/
def PinMap : Type := List (String × Pin)

/-- `var GpioBankToBase = map[string]int{...}`. -/
def GpioBankToBase : List (String × Int) :=
  [("gpio0", 0), ("gpio1", 32), ("gpio2", 64), ("gpio3", 96),
   ("gpio4", 128), ("gpio5", 160), ("gpio6", 192)]

/-- Go map indexing `GpioBankToBase[bank]`: the zero value 0 for absent keys. -/
def bankBase (bank : String) : Int := (lookupM bank GpioBankToBase).getD 0

/-- `var GpioPinMode = map[string]string{...}`. -/
def GpioPinMode : List (String × String) :=
  [("output-high", "high"), ("output-low", "low"), ("input", "in")]

/-- Go map indexing `GpioPinMode[mode]`: the zero value "" for absent keys. -/
def modeDefault (mode : String) : String := (lookupM mode GpioPinMode).getD ""

/-- The path `fmt.Sprintf(prefix+"/sys/class/gpio/gpio%d/%s", p.Gpio, name)`
used by `Pin.Open` for every per-pin operation. -/
def pinFile (pfx : String) (n : Int) (op : String) : String :=
  pfx ++ "/sys/class/gpio/gpio" ++ toString n ++ "/" ++ op

/-- The path `prefix + "/sys/class/gpio/export"` used by `Export`. -/
def exportFile (pfx : String) : String := pfx ++ "/sys/class/gpio/export"

/-- `func (p *Pin) Export() (err error)`: open the controller-wide export file
for writing; on open failure return the error; otherwise write the decimal pin
number plus newline with `fmt.Fprintf`, whose result the source discards, and
return nil. -/
def Export (pfx : String) (fs : FS) (p : Pin) : FS × Option IOErr :=
  let fn := exportFile pfx
  if fs.openOk fn then
    ((fs.write fn (toString p.Gpio ++ "\n")).1, none)
  else (fs, some .openFailed)

/-- `func (p *Pin) IsExported() (x bool)`: stat the pin's "value" file, return
false on any stat error, true otherwise. -/
def IsExported (pfx : String) (fs : FS) (p : Pin) : Bool :=
  match fs.statErr (pinFile pfx p.Gpio "value") with
  | some _ => false
  | none => true

/-- Result of `func (p *Pin) Open(name string) (f *os.File, fn string, err error)`:
whether the open succeeded, the derived path, and the error if any. -/
structure OpenResult where
  ok : Bool
  fn : String
  err : Option IOErr
  deriving Repr

/-- `func (p *Pin) Open(name string)`: derive the per-pin path and open it. -/
def Pin.Open (pfx : String) (fs : FS) (p : Pin) (name : String) : OpenResult :=
  let fn := pinFile pfx p.Gpio name
  { ok := fs.openOk fn
    fn := fn
    err := if fs.openOk fn then none else some .openFailed }

/-- `func (p *Pin) SetValue(v bool) (err error)`: open the "value" file
(propagating open errors), then write "1\n" or "0\n", propagating the write's
error. -/
def SetValue (pfx : String) (fs : FS) (p : Pin) (v : Bool) : FS × Option IOErr :=
  let o := Pin.Open pfx fs p "value"
  match o.err with
  | some e => (fs, some e)
  | none =>
    let x : Nat := if v then 1 else 0
    fs.write o.fn (toString x ++ "\n")

/-- The digits-prefix accumulator behind `fmt.Fscanf(f, "%d\n", &x)`. -/
def leadingNat (acc : Nat) : List Char → Nat
  | [] => acc
  | c :: cs => if c.isDigit then leadingNat (acc * 10 + (c.toNat - 48)) cs else acc

/-- `fmt.Fscanf(f, "%d\n", &x)` on content `s`: parse an optionally signed
decimal integer prefix; `none` when no digit is found (the scan fails and `x`
keeps its zero value). -/
def fscanfInt (s : String) : Option Int :=
  match s.data with
  | '-' :: d :: ds => if d.isDigit then some (-(leadingNat 0 (d :: ds) : Int)) else none
  | '+' :: d :: ds => if d.isDigit then some ((leadingNat 0 (d :: ds) : Int)) else none
  | d :: ds => if d.isDigit then some ((leadingNat 0 (d :: ds) : Int)) else none
  | [] => none

/-- `func (p *Pin) Value() (v bool, err error)`: open the "value" file
(propagating open errors), scan a decimal integer `x` (zero-initialised), and
return `x != 0` together with the scan error if any. -/
def Value (pfx : String) (fs : FS) (p : Pin) : Bool × Option IOErr :=
  let o := Pin.Open pfx fs p "value"
  match o.err with
  | some e => (false, some e)
  | none =>
    match fscanfInt (fs.content o.fn) with
    | some x => (x != 0, none)
    | none => (false, some .scanFailed)

/-- All-digit accumulator behind `strconv.Atoi`: `none` as soon as a non-digit
character appears. -/
def digitsVal (acc : Nat) : List Char → Option Nat
  | [] => some acc
  | c :: cs => if c.isDigit then digitsVal (acc * 10 + (c.toNat - 48)) cs else none

/-- `strconv.Atoi(s)`: an optional sign followed by one or more digits parses
to its value; anything else is a syntax error, modelled as `none` (and the Go
result value is then 0). -/
def goAtoi (s : String) : Option Int :=
  match s.data with
  | [] => none
  | '-' :: [] => none
  | '-' :: c :: cs => (digitsVal 0 (c :: cs)).map (fun n => -(n : Int))
  | '+' :: [] => none
  | '+' :: c :: cs => (digitsVal 0 (c :: cs)).map (fun n => (n : Int))
  | c :: cs => (digitsVal 0 (c :: cs)).map (fun n => (n : Int))

/-- Result of `NewPin`: the updated registry, the filesystem after the
export side effect, and the returned error. -/
structure NewPinResult where
  pins : PinMap
  fs : FS
  err : Option IOErr

/-- `func NewPin(name, mode, bank, index string) (err error)`: parse the index
with `strconv.Atoi` ignoring its error (0 on failure), build the Pin with
`Gpio = GpioBankToBase[bank] + i` and `Default = GpioPinMode[mode]`, insert it
under `name`, and export it unless it is already exported. -/
def NewPin (pfx : String) (fs : FS) (pins : PinMap) (name mode bank index : String) :
    NewPinResult :=
  let i := (goAtoi index).getD 0
  let p : Pin := ⟨bankBase bank + i, name, modeDefault mode⟩
  let pins' := mapInsert name p pins
  if IsExported pfx fs p then ⟨pins', fs, none⟩
  else ⟨pins', (Export pfx fs p).1, (Export pfx fs p).2⟩

/-- A child node of a gpio-controller node in the device tree: its node-name
and the keys of its properties, in iteration order. -/
structure FdtChild where
  name : String
  props : List String
  deriving DecidableEq, Repr

/-- A device-tree node carrying the "gpio-controller" property: its name and
its children. -/
structure FdtNode where
  name : String
  children : List FdtChild
  deriving DecidableEq, Repr

/-- The device tree as this package consumes it: the properties of the
"aliases" node (key, raw value) and the nodes carrying "gpio-controller". -/
structure Tree where
  aliasProps : List (String × String)
  controllers : List FdtNode

/-- `strings.Contains(s, pat)` for a non-empty pattern, via `splitOn`. -/
def strContains (s pat : String) : Bool := 2 ≤ (s.splitOn pat).length

/-- `strings.Split` on a single-character separator, on the character list:
structural recursion so that it evaluates inside the kernel.  The result is
always non-empty. -/
def splitChars (sep : Char) : List Char → List (List Char)
  | [] => [[]]
  | c :: cs =>
    let r := splitChars sep cs
    if c = sep then [] :: r
    else (c :: r.headD []) :: r.tail

/-- `strings.Split(s, sep)` for the single-character separators "@", "/" and
"\x00" used by this package. -/
def splitOnChar (s : String) (sep : Char) : List String :=
  (splitChars sep s.data).map String.mk

/-- The alias value computation in `gatherAliases`: split the raw property
value on NUL, take the first piece, split it on "/", take the last segment.
(Both splits are non-empty, so the defaults are never used.) -/
def aliasTarget (raw : String) : String :=
  ((splitOnChar ((splitOnChar raw '\x00').headD "") '/')).getLastD ""

/-- `func gatherAliases(n *fdt.Node)`: for every property of the "aliases"
node whose key contains "gpio", record key → last path segment of its value. -/
def gatherAliases (props : List (String × String)) (als : GpioAliasMap) : GpioAliasMap :=
  props.foldl
    (fun m pr => if strContains pr.1 "gpio" then mapInsert pr.1 (aliasTarget pr.2) m else m)
    als

/-- The property loop of `gatherPins` for one child: iterate the child's
property keys; "gpio-pin-desc" re-assigns `pn` to the child's name split on
"@"; "output-high"/"output-low"/"input" assign `mode`. -/
def procProps (cname : String) : List String → List String → String → List String × String
  | [], pn, mode => (pn, mode)
  | p :: ps, pn, mode =>
    if p = "gpio-pin-desc" then procProps cname ps (splitOnChar cname '@') mode
    else if p = "output-high" ∨ p = "output-low" ∨ p = "input" then procProps cname ps pn p
    else procProps cname ps pn mode

/-- The child loop of `gatherPins` for one matching alias `na`: for each child
run the property loop (with `mode` reset to "" but `pn` carried over from the
previous child), then call `NewPin pn[0] mode na pn[1]`, logging and dropping
its error.  The slice accesses `pn[0]` and `pn[1]` panic when `pn` has fewer
than two elements; a panic is modelled as `none`. -/
def gatherChildren (pfx na : String) :
    List String → PinMap → FS → List FdtChild → Option (List String × PinMap × FS)
  | pn, pins, fs, [] => some (pn, pins, fs)
  | pn, pins, fs, c :: cs =>
    let pm := procProps c.name c.props pn ""
    if 2 ≤ pm.1.length then
      let r := NewPin pfx fs pins (pm.1.getD 0 "") pm.2 na (pm.1.getD 1 "")
      gatherChildren pfx na pm.1 r.pins r.fs cs
    else none

/-- The alias loop of `func gatherPins(n *fdt.Node, ...)`: for each alias
entry whose value equals the node's name, visit the node's children.  The
slice `pn` is declared once per call, so it persists across aliases and
children. -/
def gatherPinsAls (pfx : String) (node : FdtNode) :
    List String → PinMap → FS → GpioAliasMap → Option (List String × PinMap × FS)
  | pn, pins, fs, [] => some (pn, pins, fs)
  | pn, pins, fs, (na, al) :: rest =>
    if al = node.name then
      match gatherChildren pfx na pn pins fs node.children with
      | none => none
      | some (pn', pins', fs') => gatherPinsAls pfx node pn' pins' fs' rest
    else gatherPinsAls pfx node pn pins fs rest

/-- `func gatherPins(n *fdt.Node, name string, value string)`: run the alias
loop starting from the nil slice `pn`. -/
def gatherPins (pfx : String) (als : GpioAliasMap) (node : FdtNode) (pins : PinMap)
    (fs : FS) : Option (PinMap × FS) :=
  (gatherPinsAls pfx node [] pins fs als).map (fun r => (r.2.1, r.2.2))

/-- `t.EachProperty("gpio-controller", "", gatherPins)`: run `gatherPins` on
every controller node in turn. -/
def runControllers (pfx : String) (als : GpioAliasMap) :
    PinMap → FS → List FdtNode → Option (PinMap × FS)
  | pins, fs, [] => some (pins, fs)
  | pins, fs, n :: ns =>
    match gatherPins pfx als n pins fs with
    | none => none
    | some (pins', fs') => runControllers pfx als pins' fs' ns

/-- The package-level mutable state `var aliases GpioAliasMap; var pins PinMap`.
`aliases = none` is the Go nil map before `gpioInit` has run. -/
structure GpioState where
  aliases : Option GpioAliasMap
  pins : PinMap

/-- `func gpioInit()`: a no-op when `aliases` is already non-nil; otherwise
allocate both maps, and when the default tree is available gather the aliases
and then the pins of every controller node.  `none` models a panic during
discovery. -/
def gpioInit (pfx : String) (fs : FS) (st : GpioState) (tree : Option Tree) :
    Option (GpioState × FS) :=
  if st.aliases.isSome then some (st, fs)
  else
    match tree with
    | none => some (⟨some [], []⟩, fs)
    | some t =>
      match runControllers pfx (gatherAliases t.aliasProps []) [] fs t.controllers with
      | none => none
      | some (pins', fs') => some (⟨some (gatherAliases t.aliasProps []), pins'⟩, fs')

/-- `func FindPin(name string) (p *Pin, f bool)`: run `gpioInit`, then read
the registry; the Go pair `(nil, false)` is the `none` result of the map
read. -/
def FindPin (pfx : String) (fs : FS) (st : GpioState) (tree : Option Tree)
    (name : String) : Option (Option Pin × GpioState × FS) :=
  match gpioInit pfx fs st tree with
  | none => none
  | some (st', fs') => some (lookupM name st'.pins, st', fs')

/-! Concrete fixtures used to instantiate the theorems below. -/

/-- A filesystem on which every open and write succeeds, every stat succeeds,
and every file reads as "1\n". -/
def fsAll : FS :=
  { openOk := fun _ => true
    writeOk := fun _ => true
    statErr := fun _ => none
    content := fun _ => "1\n"
    written := [] }

/-- A filesystem on which every open succeeds but every write and stat
fails. -/
def fsNoWrite : FS :=
  { openOk := fun _ => true
    writeOk := fun _ => false
    statErr := fun _ => some .statFailed
    content := fun _ => ""
    written := [] }

/-- A sample pin. -/
def pin5 : Pin := ⟨5, "p", ""⟩

/-! Association-map lemmas. -/

/-- Reading back the key just inserted returns the inserted value. -/
theorem lookupM_mapInsert {α : Type} (k : String) (v : α) (l : List (String × α)) :
    lookupM k (mapInsert k v l) = some v := by
  induction l with
  | nil => simp [mapInsert, lookupM]
  | cons hd t ih =>
    obtain ⟨k', v'⟩ := hd
    by_cases hk : k' = k <;> simp [mapInsert, lookupM, hk, ih]

/-- Inserting a binding for `k` leaves exactly `max 1` of the previous number
of bindings for `k`. -/
theorem countKey_mapInsert {α : Type} (k : String) (v : α) (l : List (String × α)) :
    countKey k (mapInsert k v l) = max 1 (countKey k l) := by
  induction l with
  | nil => simp [mapInsert, countKey]
  | cons hd t ih =>
    obtain ⟨k', v'⟩ := hd
    by_cases hk : k' = k
    · simp [mapInsert, countKey, hk]
    · simp [mapInsert, countKey, hk, ih]

/-- A key with no binding looks up to `none`. -/
theorem lookupM_eq_none {α : Type} (k : String) (l : List (String × α))
    (h : countKey k l = 0) : lookupM k l = none := by
  induction l with
  | nil => rfl
  | cons hd t ih =>
    obtain ⟨k', v'⟩ := hd
    by_cases hk : k' = k
    · simp [countKey, hk] at h
    · simp [countKey, hk] at h
      simp [lookupM, hk, ih h]

/-- The registry update performed by `NewPin` is an insertion of the
constructed pin, whatever the export branch does. -/
theorem NewPin_pins (pfx : String) (fs : FS) (pins : PinMap)
    (name mode bank index : String) :
    (NewPin pfx fs pins name mode bank index).pins
      = mapInsert name ⟨bankBase bank + (goAtoi index).getD 0, name, modeDefault mode⟩
          pins := by
  by_cases h :
      IsExported pfx fs ⟨bankBase bank + (goAtoi index).getD 0, name, modeDefault mode⟩ <;>
    simp [NewPin, h]

/-! Claim theorems. -/

/-- Claim C9: every per-pin operation `op` on a pin with number `N` targets
exactly `{prefix}/sys/class/gpio/gpio{N}/{op}`, while `Export` targets
`{prefix}/sys/class/gpio/export`; both paths are pure functions of the pin
number, the operation name, and the debug prefix. -/
theorem open_and_export_paths (pfx : String) (fs : FS) (p : Pin) (op : String) :
    (Pin.Open pfx fs p op).fn
        = pfx ++ "/sys/class/gpio/gpio" ++ toString p.Gpio ++ "/" ++ op
      ∧ exportFile pfx = pfx ++ "/sys/class/gpio/export" :=
  ⟨rfl, rfl⟩

/-- Claim C1, counterexample to the claim as stated: on a filesystem where the
export control file opens fine but the write to it fails, `Export` still
returns no error, because the source discards the result of `fmt.Fprintf`. -/
theorem export_drops_write_error :
    (Export "" fsNoWrite pin5).2 = none
      ∧ fsNoWrite.writeOk (exportFile "") = false :=
  ⟨rfl, rfl⟩

/-- Claim C1, amended: `Export` writes the pin number as a decimal string plus
newline to the controller-wide export control file, and returns a non-nil
error exactly when the control file cannot be opened; a failure of the write
itself is not surfaced. -/
theorem export_spec (pfx : String) (fs : FS) (p : Pin) :
    ((Export pfx fs p).2 = none ↔ fs.openOk (exportFile pfx) = true)
      ∧ (fs.openOk (exportFile pfx) = false →
          (Export pfx fs p).2 = some .openFailed)
      ∧ (fs.openOk (exportFile pfx) = true → fs.writeOk (exportFile pfx) = true →
          (Export pfx fs p).1.written
            = (exportFile pfx, toString p.Gpio ++ "\n") :: fs.written) := by
  by_cases ho : fs.openOk (exportFile pfx) = true
  · refine ⟨by simp [Export, ho], by simp [ho], fun _ hw => ?_⟩
    simp [Export, FS.write, ho, hw]
  · simp only [Bool.not_eq_true] at ho
    exact ⟨by simp [Export, ho], fun _ => by simp [Export, ho], by simp [ho]⟩

/-- Claim C1 witness: on a fully permissive filesystem `Export` of pin 5 with
empty prefix returns no error and logs the write "5\n" to the export file. -/
theorem export_spec_witness :
    (Export "" fsAll pin5).2 = none
      ∧ (Export "" fsAll pin5).1.written
          = (exportFile "", toString pin5.Gpio ++ "\n") :: fsAll.written := by
  have h := export_spec "" fsAll pin5
  exact ⟨h.1.mpr rfl, h.2.2 rfl rfl⟩

/-- Claim C2: when the index string parses as integer `i`, the pin registered
by `NewPin` has numeric identity `GpioBankToBase[bank] + i`, where an unknown
bank contributes base 0. -/
theorem newPin_identity (pfx : String) (fs : FS) (pins : PinMap)
    (name mode bank index : String) (i : Int) (h : goAtoi index = some i) :
    lookupM name (NewPin pfx fs pins name mode bank index).pins
      = some ⟨bankBase bank + i, name, modeDefault mode⟩ := by
  rw [NewPin_pins, h, Option.getD_some, lookupM_mapInsert]

/-- Claim C2 witness: `NewPin "led" "input" "gpio1" "5"` registers a pin with
identity 32 + 5 = 37 and default mode "in". -/
theorem newPin_identity_witness :
    lookupM "led" (NewPin "" fsAll [] "led" "input" "gpio1" "5").pins
      = some ⟨37, "led", "in"⟩ :=
  newPin_identity "" fsAll [] "led" "input" "gpio1" "5" 5 rfl

/-- Claim C3: when the index string does not parse as an integer, `NewPin`
behaves exactly as if the index were "0" (the identity is the bare bank base),
and the parse failure surfaces no error anywhere in the result. -/
theorem newPin_bad_index (pfx : String) (fs : FS) (pins : PinMap)
    (name mode bank index : String) (h : goAtoi index = none) :
    NewPin pfx fs pins name mode bank index = NewPin pfx fs pins name mode bank "0"
      ∧ lookupM name (NewPin pfx fs pins name mode bank index).pins
          = some ⟨bankBase bank, name, modeDefault mode⟩ := by
  have h0 : goAtoi "0" = some 0 := rfl
  constructor
  · simp only [NewPin, h, h0, Option.getD_none, Option.getD_some]
  · rw [NewPin_pins, h, Option.getD_none, add_zero, lookupM_mapInsert]

/-- Claim C3 witness: `NewPin "led" "input" "gpio1" "abc"` equals
`NewPin "led" "input" "gpio1" "0"` and registers identity 32. -/
theorem newPin_bad_index_witness :
    NewPin "" fsAll [] "led" "input" "gpio1" "abc"
        = NewPin "" fsAll [] "led" "input" "gpio1" "0"
      ∧ lookupM "led" (NewPin "" fsAll [] "led" "input" "gpio1" "abc").pins
          = some ⟨32, "led", "in"⟩ :=
  newPin_bad_index "" fsAll [] "led" "input" "gpio1" "abc" rfl

/-- Claim C6: `IsExported` returns true exactly when stat-ing the pin's
"value" file succeeds, and returns false (its return type is `Bool`, so no
error can propagate) whenever the stat fails for any reason. -/
theorem isExported_spec (pfx : String) (fs : FS) (p : Pin) :
    (IsExported pfx fs p = true ↔ fs.statErr (pinFile pfx p.Gpio "value") = none)
      ∧ ∀ e : IOErr, fs.statErr (pinFile pfx p.Gpio "value") = some e →
          IsExported pfx fs p = false := by
  cases hs : fs.statErr (pinFile pfx p.Gpio "value") <;>
    simp [IsExported, hs]

/-- Claim C6 witness: on a filesystem where every stat fails, `IsExported`
of pin 5 is false. -/
theorem isExported_spec_witness : IsExported "" fsNoWrite pin5 = false :=
  (isExported_spec "" fsNoWrite pin5).2 .statFailed rfl

/-- Claim C5: registering the same name twice leaves exactly one binding for
that name, carrying the attributes of the second registration. -/
theorem register_twice (pfx : String) (fs : FS) (pins : PinMap)
    (name m1 b1 i1 m2 b2 i2 : String) (h : countKey name pins ≤ 1) :
    countKey name
        (NewPin pfx (NewPin pfx fs pins name m1 b1 i1).fs
          (NewPin pfx fs pins name m1 b1 i1).pins name m2 b2 i2).pins = 1
      ∧ lookupM name
          (NewPin pfx (NewPin pfx fs pins name m1 b1 i1).fs
            (NewPin pfx fs pins name m1 b1 i1).pins name m2 b2 i2).pins
        = some ⟨bankBase b2 + (goAtoi i2).getD 0, name, modeDefault m2⟩ := by
  constructor
  · rw [NewPin_pins, NewPin_pins, countKey_mapInsert, countKey_mapInsert]
    omega
  · rw [NewPin_pins, lookupM_mapInsert]

/-- Claim C5 witness: registering "led" as gpio1/5 input and then as
gpio2/7 output-low leaves one binding, for pin 71 with default "low". -/
theorem register_twice_witness :
    countKey "led"
        (NewPin "" (NewPin "" fsAll [] "led" "input" "gpio1" "5").fs
          (NewPin "" fsAll [] "led" "input" "gpio1" "5").pins
          "led" "output-low" "gpio2" "7").pins = 1
      ∧ lookupM "led"
          (NewPin "" (NewPin "" fsAll [] "led" "input" "gpio1" "5").fs
            (NewPin "" fsAll [] "led" "input" "gpio1" "5").pins
            "led" "output-low" "gpio2" "7").pins
        = some ⟨71, "led", "low"⟩ :=
  register_twice "" fsAll [] "led" "input" "gpio1" "5" "output-low" "gpio2" "7"
    (by decide)

/-- Claim C7: for a name with no binding in the registry produced by the lazy
initialization, `FindPin` returns the absent pin (Go's `(nil, false)`),
together with the initialized state. -/
theorem findPin_absent (pfx : String) (fs : FS) (st : GpioState) (tree : Option Tree)
    (name : String) (st' : GpioState) (fs' : FS)
    (hinit : gpioInit pfx fs st tree = some (st', fs'))
    (habs : countKey name st'.pins = 0) :
    FindPin pfx fs st tree name = some (none, st', fs') := by
  unfold FindPin
  rw [hinit]
  dsimp only
  rw [lookupM_eq_none name st'.pins habs]

/-- Claim C7 witness: with no device tree, initialization yields an empty
registry and `FindPin "x"` returns the absent pin. -/
theorem findPin_absent_witness :
    FindPin "" fsAll ⟨none, []⟩ none "x" = some (none, ⟨some [], []⟩, fsAll) :=
  findPin_absent "" fsAll ⟨none, []⟩ none "x" ⟨some [], []⟩ fsAll rfl rfl

/-- Claim C8: once `gpioInit` has completed, every later call is a no-op: it
leaves the alias map and the pin registry exactly as they were, whatever
prefix, filesystem, or tree the later call sees. -/
theorem gpioInit_idempotent (pfx : String) (fs : FS) (st : GpioState)
    (tree : Option Tree) (st' : GpioState) (fs' : FS)
    (h : gpioInit pfx fs st tree = some (st', fs'))
    (pfx' : String) (fs₂ : FS) (tree' : Option Tree) :
    gpioInit pfx' fs₂ st' tree' = some (st', fs₂) := by
  have hsome : st'.aliases.isSome = true := by
    unfold gpioInit at h
    split at h
    · rename_i hs
      simp only [Option.some.injEq, Prod.mk.injEq] at h
      obtain ⟨rfl, rfl⟩ := h
      assumption
    · cases tree with
      | none =>
        simp only [Option.some.injEq, Prod.mk.injEq] at h
        obtain ⟨rfl, rfl⟩ := h
        rfl
      | some t =>
        dsimp only at h
        cases hr : runControllers pfx (gatherAliases t.aliasProps []) [] fs t.controllers with
        | none => rw [hr] at h; exact absurd h (by simp)
        | some r =>
          obtain ⟨pr, fr⟩ := r
          rw [hr] at h
          simp only [Option.some.injEq, Prod.mk.injEq] at h
          obtain ⟨rfl, rfl⟩ := h
          rfl
  simp [gpioInit, hsome]

/-- Claim C8 witness: a second `gpioInit` on the state produced by a first
run (no device tree) returns that state unchanged. -/
theorem gpioInit_idempotent_witness :
    gpioInit "x" fsNoWrite ⟨some [], []⟩ none = some (⟨some [], []⟩, fsNoWrite) :=
  gpioInit_idempotent "" fsAll ⟨none, []⟩ none ⟨some [], []⟩ fsAll rfl "x" fsNoWrite none

/-- Claim C10: when the pin's "value" file opens and writes successfully,
`SetValue true` writes "1\n" and `SetValue false` writes "0\n" to it with no
error; and `Value` returns false when the file reads "0\n" and true when it
reads "1\n". -/
theorem value_io_spec (pfx : String) (fs : FS) (p : Pin)
    (ho : fs.openOk (pinFile pfx p.Gpio "value") = true)
    (hw : fs.writeOk (pinFile pfx p.Gpio "value") = true) :
    ((SetValue pfx fs p true).1.written
        = (pinFile pfx p.Gpio "value", "1\n") :: fs.written
      ∧ (SetValue pfx fs p true).2 = none)
    ∧ ((SetValue pfx fs p false).1.written
        = (pinFile pfx p.Gpio "value", "0\n") :: fs.written
      ∧ (SetValue pfx fs p false).2 = none)
    ∧ (fs.content (pinFile pfx p.Gpio "value") = "0\n" → (Value pfx fs p).1 = false)
    ∧ (fs.content (pinFile pfx p.Gpio "value") = "1\n" → (Value pfx fs p).1 = true) := by
  have h0 : fscanfInt "0\n" = some 0 := rfl
  have h1 : fscanfInt "1\n" = some 1 := rfl
  have e1 : toString (1 : Nat) ++ "\n" = "1\n" := rfl
  have e0 : toString (0 : Nat) ++ "\n" = "0\n" := rfl
  refine ⟨⟨?_, ?_⟩, ⟨?_, ?_⟩, fun hc => ?_, fun hc => ?_⟩
  · simp [SetValue, Pin.Open, FS.write, ho, hw, e1]
  · simp [SetValue, Pin.Open, FS.write, ho, hw]
  · simp [SetValue, Pin.Open, FS.write, ho, hw, e0]
  · simp [SetValue, Pin.Open, FS.write, ho, hw]
  · simp [Value, Pin.Open, ho, hc, h0]
  · simp [Value, Pin.Open, ho, hc, h1]

/-- Claim C10 witness: on a fully permissive filesystem whose files read as
"1\n", `SetValue` logs the "1\n" write to the pin's value file and `Value`
returns true. -/
theorem value_io_spec_witness :
    (SetValue "" fsAll pin5 true).1.written
        = (pinFile "" pin5.Gpio "value", "1\n") :: fsAll.written
      ∧ (Value "" fsAll pin5).1 = true := by
  have h := value_io_spec "" fsAll pin5 rfl rfl
  exact ⟨h.1.1, h.2.2.2 rfl⟩

/-! Lemmas about the property loop of `gatherPins`. -/

/-- A child without "gpio-pin-desc" leaves `pn` untouched. -/
theorem procProps_fst_of_not_mem (cname : String) (ps : List String)
    (pn : List String) (mode : String) (h : "gpio-pin-desc" ∉ ps) :
    (procProps cname ps pn mode).1 = pn := by
  induction ps generalizing pn mode with
  | nil => rfl
  | cons p ps ih =>
    have hp : p ≠ "gpio-pin-desc" := fun hpe => h (hpe ▸ List.mem_cons_self p ps)
    have hps : "gpio-pin-desc" ∉ ps := fun hm => h (List.mem_cons_of_mem p hm)
    by_cases hm : p = "output-high" ∨ p = "output-low" ∨ p = "input" <;>
      simp [procProps, hp, hm, ih _ _ hps]

/-- A child carrying "gpio-pin-desc" ends the property loop with `pn` equal to
its node-name split on "@". -/
theorem procProps_fst_of_mem (cname : String) (ps : List String)
    (pn : List String) (mode : String) (h : "gpio-pin-desc" ∈ ps) :
    (procProps cname ps pn mode).1 = splitOnChar cname '@' := by
  induction ps generalizing pn mode with
  | nil => exact absurd h (List.not_mem_nil _)
  | cons p ps ih =>
    by_cases hp : p = "gpio-pin-desc"
    · subst hp
      by_cases hm : "gpio-pin-desc" ∈ ps
      · simp [procProps, ih _ _ hm]
      · simp [procProps, procProps_fst_of_not_mem cname ps _ _ hm]
    · have hm : "gpio-pin-desc" ∈ ps := by
        rcases List.mem_cons.mp h with he | hm
        · exact absurd he.symm hp
        · exact hm
      by_cases hmo : p = "output-high" ∨ p = "output-low" ∨ p = "input" <;>
        simp [procProps, hp, hmo, ih _ _ hm]

/-- When every child carries "gpio-pin-desc" and an "@" in its node-name, the
child loop never indexes out of range, from any starting slice and state. -/
theorem gatherChildren_isSome (pfx na : String) (cs : List FdtChild)
    (h : ∀ c ∈ cs, "gpio-pin-desc" ∈ c.props ∧ 2 ≤ (splitOnChar c.name '@').length) :
    ∀ (pn : List String) (pins : PinMap) (fs : FS),
      (gatherChildren pfx na pn pins fs cs).isSome = true := by
  induction cs with
  | nil => intro pn pins fs; rfl
  | cons c cs ih =>
    intro pn pins fs
    obtain ⟨hd, hl⟩ := h c (List.mem_cons_self c cs)
    have hpn := procProps_fst_of_mem c.name c.props pn "" hd
    simp only [gatherChildren]
    rw [hpn, if_pos hl]
    exact ih (fun c' hc' => h c' (List.mem_cons_of_mem c hc')) _ _ _

/-- When every child of the node satisfies the precondition, the alias loop
never indexes out of range, from any starting slice and state. -/
theorem gatherPinsAls_isSome (pfx : String) (node : FdtNode)
    (h : ∀ c ∈ node.children,
      "gpio-pin-desc" ∈ c.props ∧ 2 ≤ (splitOnChar c.name '@').length)
    (als : GpioAliasMap) :
    ∀ (pn : List String) (pins : PinMap) (fs : FS),
      (gatherPinsAls pfx node pn pins fs als).isSome = true := by
  induction als with
  | nil => intro pn pins fs; rfl
  | cons a rest ih =>
    intro pn pins fs
    obtain ⟨na, al⟩ := a
    by_cases hal : al = node.name
    · simp only [gatherPinsAls, hal, if_pos rfl]
      have hg := gatherChildren_isSome pfx na node.children h pn pins fs
      cases hgc : gatherChildren pfx na pn pins fs node.children with
      | none => rw [hgc] at hg; exact absurd hg (by simp)
      | some r =>
        obtain ⟨pn', pins', fs'⟩ := r
        exact ih pn' pins' fs'
    · simp only [gatherPinsAls, hal, if_neg hal]
      exact ih pn pins fs

/-- Claim C4, amended: the stated precondition (every child of a matched
controller node carries "gpio-pin-desc" and an "@"-separated node-name) is
sufficient for the slice accesses in `gatherPins` to stay in range — but it is
not necessary: only a violating child reached while `pn` still has fewer than
two elements (in particular a violating first child) makes the access go out
of range, since `pn` persists across children and aliases. -/
theorem gatherPins_access (pfx : String) (node : FdtNode) (pins : PinMap) (fs : FS) :
    (∀ als : GpioAliasMap,
      (∀ c ∈ node.children,
        "gpio-pin-desc" ∈ c.props ∧ 2 ≤ (splitOnChar c.name '@').length) →
      (gatherPins pfx als node pins fs).isSome = true)
    ∧ (∀ (na : String) (rest : GpioAliasMap) (c : FdtChild) (cs : List FdtChild),
        node.children = c :: cs → "gpio-pin-desc" ∉ c.props →
        gatherPins pfx ((na, node.name) :: rest) node pins fs = none) := by
  constructor
  · intro als h
    have := gatherPinsAls_isSome pfx node h als [] pins fs
    unfold gatherPins
    cases hg : gatherPinsAls pfx node [] pins fs als with
    | none => rw [hg] at this; exact absurd this (by simp)
    | some r => simp
  · intro na rest c cs hch hc
    unfold gatherPins gatherPinsAls
    rw [if_pos rfl, hch]
    have hfirst : gatherChildren pfx na [] pins fs (c :: cs) = none := by
      simp only [gatherChildren]
      rw [procProps_fst_of_not_mem c.name c.props [] "" hc]
      rfl
    rw [hfirst]
    rfl

/-- Claim C4 witness for the amended sufficiency direction: with one matched
alias and one well-formed child, discovery completes without out-of-range
access; and a first child without the property makes it go out of range. -/
theorem gatherPins_access_witness :
    (gatherPins "" [("gpio0", "n")]
        ⟨"n", [⟨"x@2", ["gpio-pin-desc"]⟩]⟩ [] fsAll).isSome = true
      ∧ gatherPins "" [("gpio0", "n")] ⟨"n", [⟨"b", []⟩]⟩ [] fsAll = none := by
  constructor
  · exact (gatherPins_access "" ⟨"n", [⟨"x@2", ["gpio-pin-desc"]⟩]⟩ [] fsAll).1
      [("gpio0", "n")] (by decide)
  · exact (gatherPins_access "" ⟨"n", [⟨"b", []⟩]⟩ [] fsAll).2
      "gpio0" [] ⟨"b", []⟩ [] rfl (by decide)

/-- Claim C4, counterexample to the claim as stated: a controller node whose
second child carries neither "gpio-pin-desc" nor an "@" in its node-name is
processed without any out-of-range access, because `pn` keeps the first
child's split — so a child without the property does not by itself make the
slice access go out of range. -/
theorem gatherPins_access_counterexample :
    (gatherPins "" [("gpio0", "n")]
        ⟨"n", [⟨"a@1", ["gpio-pin-desc"]⟩, ⟨"b", []⟩]⟩ [] fsAll).isSome = true
      ∧ "gpio-pin-desc" ∉ (FdtChild.mk "b" []).props
      ∧ ¬ 2 ≤ ((splitOnChar "b" '@').length) := by
  refine ⟨rfl, by decide, by decide⟩

end Gpio
